import Mathlib

/-!
Shallow embedding of the multi-source container-status orchestration core of
`container_status_checker.py`, together with proofs of the frozen claims.

The embedding keeps the source's data shapes:
* `ContainerStatus` mirrors the Python dataclass (all optional fields).
* The results dictionary of `main` is an insertion-ordered association list
  (`Dict`), with `dictSet` the semantics of Python `d[k] = v` and
  `dictLookup`/`dictContains` the semantics of `d[k]` / `k in d`.
* A source adapter's observable behaviour (`check_containers`) is modelled
  as `checkerBehavior loginOk raw`: the page-scraping layer is the opaque
  oracle `raw` (the rows parsed from the page before the final fill step),
  while the control flow around it — the early `LOGIN FAILED` return and the
  final "append NOT FOUND for every queried container absent from results"
  loop — is translated literally from the source.
-/

namespace ContainerCrawler

/-- The `ContainerStatus` dataclass of `container_status_checker.py`
(lines 45-56): one per-container result record; every field except the
container number is optional and defaults to `None`. -/
structure ContainerStatus where
  container_number : String
  terminal : Option String := none
  available : Option String := none
  line_operator : Option String := none
  dimensions : Option String := none
  customs_hold : Option String := none
  line_hold : Option String := none
  cbpa_hold : Option String := none
  terminal_hold : Option String := none
  location : Option String := none
  deriving DecidableEq

/-- The not-found sentinel record
`ContainerStatus(container, terminal="NOT FOUND")` synthesized at lines 262,
289, 344, 508 and 596. -/
def notFoundRec (c : String) : ContainerStatus :=
  { container_number := c, terminal := some "NOT FOUND" }

/-- The login-failure sentinel record
`ContainerStatus(container, terminal="LOGIN FAILED")` synthesized at
line 440. -/
def loginFailedRec (c : String) : ContainerStatus :=
  { container_number := c, terminal := some "LOGIN FAILED" }

/-- Python `c.strip().upper()` (line 725): drop leading and trailing
whitespace, then uppercase every character. -/
def pyStripUpper (s : String) : String :=
  String.mk
    ((((s.data.dropWhile Char.isWhitespace).reverse.dropWhile
        Char.isWhitespace).reverse).map Char.toUpper)

/-- Line 725: `container_numbers = [c.strip().upper() for c in
args.container_numbers]` — normalization of the input identifiers at
ingestion.  A plain list comprehension: it does not deduplicate. -/
def normalizeIds (container_numbers : List String) : List String :=
  container_numbers.map pyStripUpper

/-- Fuel-driven worker for `planBatches`; the fuel is the length of the
input list, which suffices whenever the batch size is positive. -/
def chunksAux (m : Nat) : Nat → List String → List (List String)
  | _, [] => []
  | 0, _ :: _ => []
  | fuel + 1, x :: xs => ((x :: xs).take m) :: chunksAux m fuel ((x :: xs).drop m)

/-- The batch planning of `TrapacChecker.check_containers` (lines 136-139):
`for i in range(0, len(container_numbers), batch_size): batch =
container_numbers[i:i + batch_size]` with `batch_size = 10`.  Modelled for a
general positive maximum batch size `m`; the checker instantiates `m = 10`. -/
def planBatches (m : Nat) (l : List String) : List (List String) :=
  chunksAux m l.length l

/-- The trailing fill loop shared by both checkers (lines 340-346 and
592-598): compute the set of container numbers present in `results`, then
append a NOT FOUND record for every queried container absent from it. -/
def fillNotFound (container_numbers : List String)
    (results : List ContainerStatus) : List ContainerStatus :=
  results ++
    (container_numbers.filter
      (fun c => !(results.any (fun r => r.container_number == c)))).map notFoundRec

/-- The behaviour of one checker's `check_containers`, with the
page-scraping layer abstracted as the oracle `raw` (the `results` list
accumulated from parsed rows before the fill step; an exception caught at
line 337/589 simply truncates it).  `loginOk = false` is the early return of
`TideworksChecker.check_containers` (lines 438-440): every queried container
becomes a LOGIN FAILED record and the query/fill path is never reached.
`TrapacChecker` has no login step, so its behaviour always has
`loginOk = true`. -/
def checkerBehavior (loginOk : Bool)
    (raw : List String → List ContainerStatus) :
    List String → List ContainerStatus :=
  fun container_numbers =>
    if loginOk then fillNotFound container_numbers (raw container_numbers)
    else container_numbers.map loginFailedRec

/-- A source adapter as the orchestrator in `main` sees it: the function
`remaining ↦ checker.check_containers(remaining)`. -/
abbrev Source := List String → List ContainerStatus

/-- The `container_results` dictionary of `main` (line 744): an
insertion-ordered association list from container number to the singleton
list `[result]` stored at lines 762, 764, 786 and 788. -/
abbrev Dict := List (String × List ContainerStatus)

/-- Python `container_results[container]` — first entry with the given key. -/
def dictLookup : Dict → String → Option (List ContainerStatus)
  | [], _ => none
  | (k, v) :: rest, c => if k = c then some v else dictLookup rest c

/-- Python `container in container_results`. -/
def dictContains (m : Dict) (c : String) : Bool :=
  (dictLookup m c).isSome

/-- Python `container_results[container] = v`: update the existing entry in
place if the key is present, otherwise append a new entry. -/
def dictSet : Dict → String → List ContainerStatus → Dict
  | [], c, v => [(c, v)]
  | (k, w) :: rest, c, v =>
    if k = c then (k, v) :: rest else (k, w) :: dictSet rest c v

/-- The keys of the results dictionary, in insertion order. -/
def dictKeys (m : Dict) : List String := m.map Prod.fst

/-- How many entries of the dictionary carry the given container number. -/
def countKey (m : Dict) (c : String) : Nat :=
  (dictKeys m).count c

/-- One iteration of the merge loop of `main` (lines 759-764 and, for the
dictionary component, 781-788): a record whose terminal is not the
`"NOT FOUND"` sentinel unconditionally overwrites the entry for its
container number; a sentinel record is inserted only when no entry exists. -/
def mergeStep (m : Dict) (result : ContainerStatus) : Dict :=
  if result.terminal ≠ some "NOT FOUND" then
    dictSet m result.container_number [result]
  else if dictContains m result.container_number then m
  else dictSet m result.container_number [result]

/-- Folding the merge loop over one source's full result list, in order —
this is what both the parallel branch (lines 754-764, in task completion
order) and the sequential branch (lines 781-788) apply to the dictionary. -/
def mergeResults (m : Dict) (results : List ContainerStatus) : Dict :=
  results.foldl mergeStep m

/-- One iteration of the sequential merge loop (lines 781-788), acting on
the pair (dictionary, `new_remaining`): the dictionary evolves by
`mergeStep`; a substantive record additionally removes the first occurrence
of its container number from `new_remaining` (`if container in
new_remaining: new_remaining.remove(container)`). -/
def seqStep (st : Dict × List String) (result : ContainerStatus) :
    Dict × List String :=
  (mergeStep st.1 result,
   if result.terminal ≠ some "NOT FOUND" then
     st.2.erase result.container_number
   else st.2)

/-- The sequential orchestrator state: the results dictionary and the
shrinking `remaining_containers` worklist. -/
structure SeqState where
  results : Dict
  remaining : List String
  deriving DecidableEq

/-- One iteration of the sequential source loop of `main` (lines 771-790):
stop if `remaining_containers` is empty (line 773, `break` — equivalent to
skipping, since no later source could re-grow the worklist); otherwise query
the source with exactly the worklist and fold the merge loop over its
results. -/
def seqSourceStep (st : SeqState) (src : Source) : SeqState :=
  if st.remaining.isEmpty then st
  else
    let stepped := (src st.remaining).foldl seqStep (st.results, st.remaining)
    { results := stepped.1, remaining := stepped.2 }

/-- The sequential mode of `main` (lines 768-798): empty dictionary, the
worklist initialized to all (normalized) container numbers, then one
`seqSourceStep` per checker in priority order. -/
def seqRun (srcs : List Source) (container_numbers : List String) : SeqState :=
  srcs.foldl seqSourceStep { results := [], remaining := container_numbers }

/-- The query log of a sequential run started from `st`: the exact worklist
each successive source is queried with; a source reached with an empty
worklist — and every source after it — is never queried (line 773). -/
def seqQueries : SeqState → List Source → List (List String)
  | _, [] => []
  | st, src :: rest =>
    if st.remaining.isEmpty then []
    else st.remaining :: seqQueries (seqSourceStep st src) rest

/-- The parallel mode of `main` (lines 746-764): every task is given the
full identifier list; result sets are merged in task completion order,
which is the order of the `completed` argument. -/
def parRun (completed : List Source) (container_numbers : List String) : Dict :=
  completed.foldl (fun m src => mergeResults m (src container_numbers)) []

/-- Outcome of the reCAPTCHA polling loop of `TrapacChecker.check_containers`
(lines 231-248), with the elapsed waiting time in seconds. -/
inductive WaitResult where
  | resolved : Nat → WaitResult
  | timedOut : Nat → WaitResult
  deriving DecidableEq

/-- The polling loop (lines 234-245), in discrete one-second steps: while
the elapsed time is below the ceiling, poll for the results table (`p
elapsed`); a visible table breaks out as resolved, otherwise sleep one
second and retry.  Structured on the remaining seconds, which the caller
sets to the full ceiling. -/
def waitLoop (p : Nat → Bool) : Nat → Nat → WaitResult
  | elapsed, 0 => .timedOut elapsed
  | elapsed, remaining + 1 =>
    if p elapsed then .resolved elapsed else waitLoop p (elapsed + 1) remaining

/-- The wait ceiling `max_wait = 300` of line 231. -/
def maxWait : Nat := 300

/-- The whole reCAPTCHA wait (lines 231-248): poll from elapsed time 0 with
the full 300-second budget; falling out of the loop raises
`TimeoutException` (line 248), i.e. ends in the timed-out state. -/
def challengeWait (p : Nat → Bool) : WaitResult :=
  waitLoop p 0 maxWait

/-- What one Trapac batch iteration produces: either the rows parsed from
the results table, or an exception (challenge timeout at line 248, or any
page failure re-raised at lines 184, 198, 252, 264, 335). -/
inductive BatchOutcome where
  | ok : List ContainerStatus → BatchOutcome
  | err : BatchOutcome
  deriving DecidableEq

/-- The batch loop of `TrapacChecker.check_containers` (lines 136-335): the
whole `for` loop over batches sits inside one `try` (line 135), so the
first batch whose processing raises aborts the loop — the rows parsed by
earlier batches are kept, later batches are never attempted.  Returns the
accumulated rows and the indices of the batches actually attempted. -/
def trapacLoop (outcome : Nat → BatchOutcome) :
    List (List String) → Nat → List ContainerStatus × List Nat
  | [], _ => ([], [])
  | _ :: rest, i =>
    match outcome i with
    | .ok rows =>
      let next := trapacLoop outcome rest (i + 1)
      (rows ++ next.1, i :: next.2)
    | .err => ([], [i])

/-- The whole of `TrapacChecker.check_containers` at the batch level (lines 133-346):
run the batch loop over batches of 10, with the per-batch page interaction
abstracted as the `outcome` oracle, then append NOT FOUND records for every
queried container without a result (lines 340-344).  The second component
is the list of attempted batch indices. -/
def trapacRun (outcome : Nat → BatchOutcome) (container_numbers : List String) :
    List ContainerStatus × List Nat :=
  let looped := trapacLoop outcome (planBatches 10 container_numbers) 0
  (fillNotFound container_numbers looped.1, looped.2)

/-- The dictionary holds a substantive (non-sentinel) record for `c`. -/
def substantiveAt (m : Dict) (c : String) : Prop :=
  ∃ r, dictLookup m c = some [r] ∧ r.terminal ≠ some "NOT FOUND"

/-! ### Dictionary lemmas -/

theorem dictLookup_dictSet_self (m : Dict) (c : String)
    (v : List ContainerStatus) : dictLookup (dictSet m c v) c = some v := by
  induction m with
  | nil => simp [dictSet, dictLookup]
  | cons p rest ih =>
    obtain ⟨k, w⟩ := p
    by_cases h : k = c <;> simp [dictSet, dictLookup, h, ih]

theorem dictLookup_dictSet_ne (m : Dict) (c c' : String)
    (v : List ContainerStatus) (h : c ≠ c') :
    dictLookup (dictSet m c v) c' = dictLookup m c' := by
  induction m with
  | nil => simp [dictSet, dictLookup, h]
  | cons p rest ih =>
    obtain ⟨k, w⟩ := p
    by_cases hk : k = c
    · subst hk
      simp [dictSet, dictLookup, h]
    · have e1 : dictSet ((k, w) :: rest) c v = (k, w) :: dictSet rest c v := by
        simp [dictSet, hk]
      rw [e1]
      by_cases hk' : k = c' <;> simp [dictLookup, hk', ih]

theorem dictContains_iff_mem_keys (m : Dict) (c : String) :
    dictContains m c = true ↔ c ∈ dictKeys m := by
  induction m with
  | nil => simp [dictContains, dictLookup, dictKeys]
  | cons p rest ih =>
    obtain ⟨k, w⟩ := p
    by_cases h : k = c
    · subst h
      simp [dictContains, dictLookup, dictKeys]
    · have e : dictContains ((k, w) :: rest) c = dictContains rest c := by
        simp [dictContains, dictLookup, h]
      rw [e, ih]
      have e2 : dictKeys ((k, w) :: rest) = k :: dictKeys rest := rfl
      rw [e2]
      simp [Ne.symm h]

theorem dictKeys_dictSet (m : Dict) (c : String) (v : List ContainerStatus) :
    dictKeys (dictSet m c v) =
      if dictContains m c then dictKeys m else dictKeys m ++ [c] := by
  induction m with
  | nil => simp [dictSet, dictKeys, dictContains, dictLookup]
  | cons p rest ih =>
    obtain ⟨k, w⟩ := p
    by_cases h : k = c
    · subst h
      simp [dictSet, dictKeys, dictContains, dictLookup]
    · have e1 : dictSet ((k, w) :: rest) c v = (k, w) :: dictSet rest c v := by
        simp [dictSet, h]
      have e2 : dictContains ((k, w) :: rest) c = dictContains rest c := by
        simp [dictContains, dictLookup, h]
      rw [e1, e2]
      have e3 : dictKeys ((k, w) :: dictSet rest c v) =
          k :: dictKeys (dictSet rest c v) := rfl
      have e4 : dictKeys ((k, w) :: rest) = k :: dictKeys rest := rfl
      rw [e3, e4, ih]
      by_cases hc : dictContains rest c = true <;> simp [hc]

theorem keysNodup_dictSet (m : Dict) (c : String) (v : List ContainerStatus)
    (h : (dictKeys m).Nodup) : (dictKeys (dictSet m c v)).Nodup := by
  rw [dictKeys_dictSet]
  by_cases hc : dictContains m c = true
  · simpa [hc] using h
  · have hcm : c ∉ dictKeys m := fun hmem =>
      hc ((dictContains_iff_mem_keys m c).mpr hmem)
    rw [if_neg (by simpa using hc)]
    refine List.Nodup.append h (List.nodup_singleton c) ?_
    intro a ha hb
    rw [List.mem_singleton] at hb
    exact hcm (hb ▸ ha)

theorem dictContains_dictSet_self (m : Dict) (c : String)
    (v : List ContainerStatus) : dictContains (dictSet m c v) c = true := by
  simp [dictContains, dictLookup_dictSet_self]

theorem dictContains_dictSet_mono (m : Dict) (c c' : String)
    (v : List ContainerStatus) (h : dictContains m c' = true) :
    dictContains (dictSet m c v) c' = true := by
  by_cases hcc : c = c'
  · subst hcc
    exact dictContains_dictSet_self m c v
  · simpa [dictContains, dictLookup_dictSet_ne m c c' v hcc] using h

/-! ### Merge-step lemmas -/

theorem dictContains_mergeStep_self (m : Dict) (r : ContainerStatus) :
    dictContains (mergeStep m r) r.container_number = true := by
  unfold mergeStep
  by_cases hs : r.terminal ≠ some "NOT FOUND"
  · simp [hs, dictContains_dictSet_self]
  · by_cases hc : dictContains m r.container_number = true <;>
      simp [hs, hc, dictContains_dictSet_self]

theorem dictContains_mergeStep_mono (m : Dict) (r : ContainerStatus)
    (c : String) (h : dictContains m c = true) :
    dictContains (mergeStep m r) c = true := by
  unfold mergeStep
  by_cases hs : r.terminal ≠ some "NOT FOUND"
  · simp [hs, dictContains_dictSet_mono m _ c _ h]
  · by_cases hc : dictContains m r.container_number = true <;>
      simp [hs, hc, h, dictContains_dictSet_mono m _ c _ h]

theorem keysNodup_mergeStep (m : Dict) (r : ContainerStatus)
    (h : (dictKeys m).Nodup) : (dictKeys (mergeStep m r)).Nodup := by
  unfold mergeStep
  by_cases hs : r.terminal ≠ some "NOT FOUND"
  · simp [hs, keysNodup_dictSet m _ _ h]
  · by_cases hc : dictContains m r.container_number = true <;>
      simp [hs, hc, h, keysNodup_dictSet m _ _ h]

theorem dictContains_mergeResults_mono (rs : List ContainerStatus) (m : Dict)
    (c : String) (h : dictContains m c = true) :
    dictContains (mergeResults m rs) c = true := by
  induction rs generalizing m with
  | nil => simpa [mergeResults] using h
  | cons r rest ih =>
    simpa [mergeResults, List.foldl_cons] using
      ih (mergeStep m r) (dictContains_mergeStep_mono m r c h)

theorem dictContains_mergeResults_of_mem (rs : List ContainerStatus) (m : Dict)
    (c : String) (h : ∃ r ∈ rs, r.container_number = c) :
    dictContains (mergeResults m rs) c = true := by
  induction rs generalizing m with
  | nil => simp at h
  | cons r rest ih =>
    simp only [mergeResults, List.foldl_cons]
    rcases h with ⟨r', hr', hc⟩
    rcases List.mem_cons.mp hr' with heq | hmem
    · have hc' : r.container_number = c := heq ▸ hc
      exact dictContains_mergeResults_mono rest (mergeStep m r) c
        (hc' ▸ dictContains_mergeStep_self m r)
    · exact ih (mergeStep m r) ⟨r', hmem, hc⟩

theorem keysNodup_mergeResults (rs : List ContainerStatus) (m : Dict)
    (h : (dictKeys m).Nodup) : (dictKeys (mergeResults m rs)).Nodup := by
  induction rs generalizing m with
  | nil => simpa [mergeResults] using h
  | cons r rest ih =>
    simpa [mergeResults, List.foldl_cons] using
      ih (mergeStep m r) (keysNodup_mergeStep m r h)

theorem substantiveAt_mergeStep (m : Dict) (r : ContainerStatus) (c : String)
    (h : substantiveAt m c) : substantiveAt (mergeStep m r) c := by
  obtain ⟨v, hv, hvt⟩ := h
  unfold mergeStep
  by_cases hs : r.terminal ≠ some "NOT FOUND"
  · by_cases hcc : r.container_number = c
    · subst hcc
      exact ⟨r, by simp [hs, dictLookup_dictSet_self], hs⟩
    · exact ⟨v, by simp [hs, dictLookup_dictSet_ne m _ c _ hcc, hv], hvt⟩
  · by_cases hcon : dictContains m r.container_number = true
    · exact ⟨v, by simp [hs, hcon, hv], hvt⟩
    · have hcc : r.container_number ≠ c := by
        intro hcc
        exact hcon (by simp [dictContains, hcc, hv])
      exact ⟨v, by simp [hs, hcon, dictLookup_dictSet_ne m _ c _ hcc, hv], hvt⟩

theorem substantiveAt_mergeResults (rs : List ContainerStatus) (m : Dict)
    (c : String) (h : substantiveAt m c) :
    substantiveAt (mergeResults m rs) c := by
  induction rs generalizing m with
  | nil => simpa [mergeResults] using h
  | cons r rest ih =>
    simpa [mergeResults, List.foldl_cons] using
      ih (mergeStep m r) (substantiveAt_mergeStep m r c h)

theorem mergeResults_substantive_of_mem (rs : List ContainerStatus) (m : Dict)
    (c : String) (h : ∃ r ∈ rs, r.container_number = c ∧
      r.terminal ≠ some "NOT FOUND") :
    substantiveAt (mergeResults m rs) c := by
  induction rs generalizing m with
  | nil => simp at h
  | cons r rest ih =>
    simp only [mergeResults, List.foldl_cons]
    rcases h with ⟨r', hr', hc, ht⟩
    rcases List.mem_cons.mp hr' with heq | hmem
    · subst heq
      refine substantiveAt_mergeResults rest (mergeStep m r') c ?_
      refine ⟨r', ?_, ht⟩
      subst hc
      simp [mergeStep, ht, dictLookup_dictSet_self]
    · exact ih (mergeStep m r) ⟨r', hmem, hc, ht⟩

/-! ### Not-found propagation lemmas -/

theorem mergeStep_lookup_ne (m : Dict) (r : ContainerStatus) (c : String)
    (h : r.container_number ≠ c) :
    dictLookup (mergeStep m r) c = dictLookup m c := by
  unfold mergeStep
  by_cases hs : r.terminal ≠ some "NOT FOUND"
  · simp [hs, dictLookup_dictSet_ne m _ c _ h]
  · by_cases hc : dictContains m r.container_number = true
    · simp [hs, hc]
    · simp [hs, hc, dictLookup_dictSet_ne m _ c _ h]

theorem mergeStep_nf_step (m : Dict) (c : String)
    (hm : dictLookup m c = none ∨ dictLookup m c = some [notFoundRec c]) :
    dictLookup (mergeStep m (notFoundRec c)) c = some [notFoundRec c] := by
  unfold mergeStep
  have hs : ¬ ((notFoundRec c).terminal ≠ some "NOT FOUND") := by
    simp [notFoundRec]
  rcases hm with hm | hm
  · have hc : ¬ dictContains m (notFoundRec c).container_number = true := by
      simp [dictContains, notFoundRec, hm]
    rw [if_neg hs, if_neg hc]
    exact dictLookup_dictSet_self m c [notFoundRec c]
  · have hc : dictContains m (notFoundRec c).container_number = true := by
      simp [dictContains, notFoundRec, hm]
    rw [if_neg hs, if_pos hc]
    exact hm

theorem mergeResults_nf_preserved (rs : List ContainerStatus) (m : Dict)
    (c : String) (hrs : ∀ r ∈ rs, r.container_number = c → r = notFoundRec c)
    (hp : dictLookup m c = some [notFoundRec c]) :
    dictLookup (mergeResults m rs) c = some [notFoundRec c] := by
  induction rs generalizing m with
  | nil => simpa [mergeResults] using hp
  | cons r rest ih =>
    simp only [mergeResults, List.foldl_cons]
    refine ih _ (fun r' h h2 => hrs r' (List.mem_cons_of_mem r h) h2) ?_
    by_cases hrc : r.container_number = c
    · have : r = notFoundRec c := hrs r (List.mem_cons_self r rest) hrc
      subst this
      exact mergeStep_nf_step m c (Or.inr hp)
    · rw [mergeStep_lookup_ne m r c hrc]
      exact hp

theorem mergeResults_nf_established (rs : List ContainerStatus) (m : Dict)
    (c : String) (hrs : ∀ r ∈ rs, r.container_number = c → r = notFoundRec c)
    (hmem : notFoundRec c ∈ rs)
    (hm : dictLookup m c = none ∨ dictLookup m c = some [notFoundRec c]) :
    dictLookup (mergeResults m rs) c = some [notFoundRec c] := by
  induction rs generalizing m with
  | nil => simp at hmem
  | cons r rest ih =>
    simp only [mergeResults, List.foldl_cons]
    by_cases hrc : r.container_number = c
    · have : r = notFoundRec c := hrs r (List.mem_cons_self r rest) hrc
      subst this
      exact mergeResults_nf_preserved rest _ c
        (fun r' h h2 => hrs r' (List.mem_cons_of_mem _ h) h2)
        (mergeStep_nf_step m c hm)
    · have hmem' : notFoundRec c ∈ rest := by
        rcases List.mem_cons.mp hmem with heq | h
        · exact absurd (congrArg ContainerStatus.container_number heq.symm) hrc
        · exact h
      refine ih _ (fun r' h h2 => hrs r' (List.mem_cons_of_mem _ h) h2) hmem' ?_
      rw [mergeStep_lookup_ne m r c hrc]
      exact hm

/-! ### Source totality lemmas -/

theorem fillNotFound_total (q : List String) (raws : List ContainerStatus)
    (c : String) (hc : c ∈ q) :
    ∃ r ∈ fillNotFound q raws, r.container_number = c := by
  by_cases hany : raws.any (fun r => r.container_number == c) = true
  · rcases List.any_eq_true.mp hany with ⟨r, hr, hrc⟩
    exact ⟨r, List.mem_append_left _ hr, by simpa using hrc⟩
  · refine ⟨notFoundRec c, List.mem_append_right _ ?_, rfl⟩
    refine List.mem_map.mpr ⟨c, ?_, rfl⟩
    refine List.mem_filter.mpr ⟨hc, ?_⟩
    simpa using hany

theorem fillNotFound_nf_mem (q : List String) (raws : List ContainerStatus)
    (c : String) (habs : ∀ r ∈ raws, r.container_number ≠ c) (hc : c ∈ q) :
    notFoundRec c ∈ fillNotFound q raws := by
  refine List.mem_append_right _ ?_
  refine List.mem_map.mpr ⟨c, List.mem_filter.mpr ⟨hc, ?_⟩, rfl⟩
  simp only [Bool.not_eq_true', List.any_eq_false]
  intro r hr
  simpa using habs r hr

theorem fillNotFound_nf_only (q : List String) (raws : List ContainerStatus)
    (c : String) (habs : ∀ r ∈ raws, r.container_number ≠ c) :
    ∀ r ∈ fillNotFound q raws, r.container_number = c → r = notFoundRec c := by
  intro r hr hrc
  rcases List.mem_append.mp hr with hraw | hfill
  · exact absurd hrc (habs r hraw)
  · rcases List.mem_map.mp hfill with ⟨x, _, rfl⟩
    have : x = c := hrc
    rw [this]

theorem checkerBehavior_total (loginOk : Bool)
    (raw : List String → List ContainerStatus) (q : List String) (c : String)
    (hc : c ∈ q) :
    ∃ r ∈ checkerBehavior loginOk raw q, r.container_number = c := by
  cases loginOk with
  | true => simpa [checkerBehavior] using fillNotFound_total q (raw q) c hc
  | false =>
    refine ⟨loginFailedRec c, ?_, rfl⟩
    simpa [checkerBehavior] using List.mem_map.mpr ⟨c, hc, rfl⟩

theorem checkerBehavior_nf (raw : List String → List ContainerStatus)
    (q : List String) (c : String)
    (hraw : ∀ q', ∀ r ∈ raw q', r.container_number ≠ c) :
    (∀ r ∈ checkerBehavior true raw q, r.container_number = c →
      r = notFoundRec c) ∧
    (c ∈ q → notFoundRec c ∈ checkerBehavior true raw q) := by
  constructor
  · intro r hr hrc
    exact fillNotFound_nf_only q (raw q) c (hraw q) r hr hrc
  · intro hc
    exact fillNotFound_nf_mem q (raw q) c (hraw q) hc

/-! ### Sequential-mode lemmas -/

theorem seqFold_fst (rs : List ContainerStatus) (m : Dict)
    (rem : List String) : (rs.foldl seqStep (m, rem)).1 = mergeResults m rs := by
  induction rs generalizing m rem with
  | nil => simp [mergeResults]
  | cons r rest ih =>
    simp only [List.foldl_cons, mergeResults]
    exact ih (mergeStep m r) _

theorem seqFold_snd_not_mem (rs : List ContainerStatus) (m : Dict)
    (rem : List String) (X : String) (h : X ∉ rem) :
    X ∉ (rs.foldl seqStep (m, rem)).2 := by
  induction rs generalizing m rem with
  | nil => simpa using h
  | cons r rest ih =>
    simp only [List.foldl_cons]
    refine ih _ _ ?_
    show X ∉ (seqStep (m, rem) r).2
    by_cases hs : r.terminal ≠ some "NOT FOUND"
    · rw [show (seqStep (m, rem) r).2 = rem.erase r.container_number from by
        simp [seqStep, hs]]
      exact fun hmem => h (List.mem_of_mem_erase hmem)
    · rw [show (seqStep (m, rem) r).2 = rem from by simp [seqStep, hs]]
      exact h

theorem seqFold_snd_nodup (rs : List ContainerStatus) (m : Dict)
    (rem : List String) (h : rem.Nodup) :
    ((rs.foldl seqStep (m, rem)).2).Nodup := by
  induction rs generalizing m rem with
  | nil => simpa using h
  | cons r rest ih =>
    simp only [List.foldl_cons]
    refine ih _ _ ?_
    show ((seqStep (m, rem) r).2).Nodup
    by_cases hs : r.terminal ≠ some "NOT FOUND"
    · rw [show (seqStep (m, rem) r).2 = rem.erase r.container_number from by
        simp [seqStep, hs]]
      exact h.erase _
    · rw [show (seqStep (m, rem) r).2 = rem from by simp [seqStep, hs]]
      exact h

theorem seqFold_snd_resolved (rs : List ContainerStatus) (m : Dict)
    (rem : List String) (X : String) (hnd : rem.Nodup)
    (h : ∃ r ∈ rs, r.container_number = X ∧ r.terminal ≠ some "NOT FOUND") :
    X ∉ (rs.foldl seqStep (m, rem)).2 := by
  induction rs generalizing m rem with
  | nil => simp at h
  | cons r rest ih =>
    simp only [List.foldl_cons]
    by_cases hr : r.container_number = X ∧ r.terminal ≠ some "NOT FOUND"
    · have e : (seqStep (m, rem) r).2 = rem.erase X := by
        simp [seqStep, hr.2, hr.1]
      refine seqFold_snd_not_mem rest _ _ X ?_
      show X ∉ (seqStep (m, rem) r).2
      rw [e]
      intro hmem
      exact ((List.Nodup.mem_erase_iff hnd).mp hmem).1 rfl
    · have h' : ∃ r' ∈ rest, r'.container_number = X ∧
          r'.terminal ≠ some "NOT FOUND" := by
        rcases h with ⟨r', hr', hprop⟩
        rcases List.mem_cons.mp hr' with heq | hmem
        · exact absurd (heq ▸ hprop) hr
        · exact ⟨r', hmem, hprop⟩
      refine ih _ _ ?_ h'
      show ((seqStep (m, rem) r).2).Nodup
      by_cases hs : r.terminal ≠ some "NOT FOUND"
      · rw [show (seqStep (m, rem) r).2 = rem.erase r.container_number from by
          simp [seqStep, hs]]
        exact hnd.erase _
      · rw [show (seqStep (m, rem) r).2 = rem from by simp [seqStep, hs]]
        exact hnd

theorem seqSourceStep_not_mem (st : SeqState) (src : Source) (X : String)
    (h : X ∉ st.remaining) : X ∉ (seqSourceStep st src).remaining := by
  unfold seqSourceStep
  by_cases he : st.remaining.isEmpty = true
  · simpa [he] using h
  · simpa [he] using seqFold_snd_not_mem (src st.remaining) _ _ X h

theorem seqQueries_not_mem (srcs : List Source) (st : SeqState) (X : String)
    (h : X ∉ st.remaining) : ∀ q ∈ seqQueries st srcs, X ∉ q := by
  induction srcs generalizing st with
  | nil => simp [seqQueries]
  | cons s rest ih =>
    intro q hq
    unfold seqQueries at hq
    by_cases he : st.remaining.isEmpty = true
    · simp [he] at hq
    · rw [if_neg he] at hq
      rcases List.mem_cons.mp hq with heq | hmem
      · exact heq ▸ h
      · exact ih (seqSourceStep st s) (seqSourceStep_not_mem st s X h) q hmem

theorem seqSourceStep_contains (st : SeqState) (src : Source) (c : String)
    (h : dictContains st.results c = true) :
    dictContains (seqSourceStep st src).results c = true := by
  unfold seqSourceStep
  by_cases he : st.remaining.isEmpty = true
  · simpa [he] using h
  · rw [if_neg he]
    simpa [seqFold_fst] using
      dictContains_mergeResults_mono (src st.remaining) st.results c h

theorem seqSourceStep_keysNodup (st : SeqState) (src : Source)
    (h : (dictKeys st.results).Nodup) :
    (dictKeys (seqSourceStep st src).results).Nodup := by
  unfold seqSourceStep
  by_cases he : st.remaining.isEmpty = true
  · simpa [he] using h
  · rw [if_neg he]
    simpa [seqFold_fst] using
      keysNodup_mergeResults (src st.remaining) st.results h

theorem seqLoop_contains (srcs : List Source) (st : SeqState) (c : String)
    (h : dictContains st.results c = true) :
    dictContains (srcs.foldl seqSourceStep st).results c = true := by
  induction srcs generalizing st with
  | nil => simpa using h
  | cons s rest ih =>
    simpa [List.foldl_cons] using
      ih (seqSourceStep st s) (seqSourceStep_contains st s c h)

theorem seqLoop_keysNodup (srcs : List Source) (st : SeqState)
    (h : (dictKeys st.results).Nodup) :
    (dictKeys (srcs.foldl seqSourceStep st).results).Nodup := by
  induction srcs generalizing st with
  | nil => simpa using h
  | cons s rest ih =>
    simpa [List.foldl_cons] using
      ih (seqSourceStep st s) (seqSourceStep_keysNodup st s h)

theorem seqLoop_nf_preserved (srcs : List Source) (st : SeqState) (c : String)
    (hsrcs : ∀ src ∈ srcs, ∀ q, ∀ r ∈ src q, r.container_number = c →
      r = notFoundRec c)
    (hp : dictLookup st.results c = some [notFoundRec c]) :
    dictLookup ((srcs.foldl seqSourceStep st).results) c =
      some [notFoundRec c] := by
  induction srcs generalizing st with
  | nil => simpa using hp
  | cons s rest ih =>
    simp only [List.foldl_cons]
    refine ih _ (fun src h => hsrcs src (List.mem_cons_of_mem _ h)) ?_
    unfold seqSourceStep
    by_cases he : st.remaining.isEmpty = true
    · rw [if_pos (by simpa using he)]
      exact hp
    · rw [if_neg (by simpa using he)]
      show dictLookup
        ((s st.remaining).foldl seqStep (st.results, st.remaining)).1 c = _
      rw [seqFold_fst]
      exact mergeResults_nf_preserved _ _ c
        (hsrcs s (List.mem_cons_self _ _) st.remaining) hp

theorem seqSourceStep_nf_established (st : SeqState)
    (raw : List String → List ContainerStatus) (c : String)
    (hraw : ∀ q', ∀ r ∈ raw q', r.container_number ≠ c)
    (hc : c ∈ st.remaining)
    (hm : dictLookup st.results c = none ∨
      dictLookup st.results c = some [notFoundRec c]) :
    dictLookup (seqSourceStep st (checkerBehavior true raw)).results c =
      some [notFoundRec c] := by
  have hne : st.remaining.isEmpty = false := by
    cases hrem : st.remaining
    · rw [hrem] at hc
      cases hc
    · simp [hrem]
  unfold seqSourceStep
  rw [if_neg (by simp [hne])]
  show dictLookup
    ((checkerBehavior true raw st.remaining).foldl seqStep
      (st.results, st.remaining)).1 c = _
  rw [seqFold_fst]
  exact mergeResults_nf_established _ _ c
    ((checkerBehavior_nf raw st.remaining c hraw).1)
    ((checkerBehavior_nf raw st.remaining c hraw).2 hc) hm

/-! ### Parallel-mode lemmas -/

theorem parLoop_nf_preserved (srcs : List Source) (ids : List String)
    (m : Dict) (c : String)
    (hsrcs : ∀ src ∈ srcs, ∀ r ∈ src ids, r.container_number = c →
      r = notFoundRec c)
    (hp : dictLookup m c = some [notFoundRec c]) :
    dictLookup (srcs.foldl (fun m src => mergeResults m (src ids)) m) c =
      some [notFoundRec c] := by
  induction srcs generalizing m with
  | nil => simpa using hp
  | cons s rest ih =>
    simp only [List.foldl_cons]
    exact ih _ (fun src h => hsrcs src (List.mem_cons_of_mem _ h))
      (mergeResults_nf_preserved _ m c (hsrcs s (List.mem_cons_self _ _)) hp)

theorem parLoop_contains (srcs : List Source) (ids : List String) (m : Dict)
    (c : String) (h : dictContains m c = true) :
    dictContains
      (srcs.foldl (fun m src => mergeResults m (src ids)) m) c = true := by
  induction srcs generalizing m with
  | nil => simpa using h
  | cons s rest ih =>
    simpa [List.foldl_cons] using
      ih (mergeResults m (s ids)) (dictContains_mergeResults_mono _ m c h)

theorem parLoop_keysNodup (srcs : List Source) (ids : List String) (m : Dict)
    (h : (dictKeys m).Nodup) :
    (dictKeys (srcs.foldl (fun m src => mergeResults m (src ids)) m)).Nodup := by
  induction srcs generalizing m with
  | nil => simpa using h
  | cons s rest ih =>
    simpa [List.foldl_cons] using
      ih (mergeResults m (s ids)) (keysNodup_mergeResults _ m h)

theorem countKey_eq_one (m : Dict) (c : String) (hnd : (dictKeys m).Nodup)
    (hc : dictContains m c = true) : countKey m c = 1 :=
  List.count_eq_one_of_mem hnd ((dictContains_iff_mem_keys m c).mp hc)

/-! ### Batch-planning lemmas -/

theorem chunksAux_join (m : Nat) (hm : 0 < m) :
    ∀ (fuel : Nat) (l : List String), l.length ≤ fuel →
      (chunksAux m fuel l).flatten = l := by
  intro fuel
  induction fuel with
  | zero =>
    intro l hl
    have : l = [] := List.length_eq_zero.mp (Nat.le_zero.mp hl)
    subst this
    simp [chunksAux]
  | succ f ih =>
    intro l hl
    cases l with
    | nil => simp [chunksAux]
    | cons x xs =>
      have hdrop : ((x :: xs).drop m).length ≤ f := by
        rw [List.length_drop]
        simp only [List.length_cons] at hl ⊢
        omega
      simp only [chunksAux, List.flatten_cons, ih _ hdrop]
      exact List.take_append_drop m (x :: xs)

theorem ceil_div_step (n m : Nat) (hm : 0 < m) (hn : 1 ≤ n) :
    (n - m + m - 1) / m + 1 = (n + m - 1) / m := by
  have lhs : (n + m - 1) / m = (n - 1) / m + 1 := by
    rw [show n + m - 1 = (n - 1) + m by omega]
    exact Nat.add_div_right _ hm
  by_cases hnm : m ≤ n
  · rw [show n - m + m - 1 = n - 1 by omega, lhs]
  · rw [show n - m + m - 1 = m - 1 by omega, lhs,
      Nat.div_eq_of_lt (by omega : m - 1 < m),
      Nat.div_eq_of_lt (by omega : n - 1 < m)]

theorem chunksAux_length (m : Nat) (hm : 0 < m) :
    ∀ (fuel : Nat) (l : List String), l.length ≤ fuel →
      (chunksAux m fuel l).length = (l.length + m - 1) / m := by
  intro fuel
  induction fuel with
  | zero =>
    intro l hl
    have : l = [] := List.length_eq_zero.mp (Nat.le_zero.mp hl)
    subst this
    simp only [chunksAux, List.length_nil, Nat.zero_add]
    exact (Nat.div_eq_of_lt (by omega : m - 1 < m)).symm
  | succ f ih =>
    intro l hl
    cases l with
    | nil =>
      simp only [chunksAux, List.length_nil, Nat.zero_add]
      exact (Nat.div_eq_of_lt (by omega : m - 1 < m)).symm
    | cons x xs =>
      have hdrop : ((x :: xs).drop m).length ≤ f := by
        rw [List.length_drop]
        simp only [List.length_cons] at hl ⊢
        omega
      have hlen : ((x :: xs).drop m).length = (x :: xs).length - m :=
        List.length_drop m _
      simp only [chunksAux, List.length_cons, ih _ hdrop, hlen]
      exact ceil_div_step (xs.length + 1) m hm (by omega)

theorem chunksAux_ne_nil (m : Nat) (hm : 0 < m) :
    ∀ (fuel : Nat) (l : List String), ∀ b ∈ chunksAux m fuel l, b ≠ [] := by
  intro fuel
  induction fuel with
  | zero =>
    intro l b hb
    cases l <;> simp [chunksAux] at hb
  | succ f ih =>
    intro l b hb
    cases l with
    | nil => simp [chunksAux] at hb
    | cons x xs =>
      simp only [chunksAux, List.mem_cons] at hb
      rcases hb with hb | hb
      · subst hb
        obtain ⟨k, rfl⟩ := Nat.exists_eq_succ_of_ne_zero (by omega : m ≠ 0)
        simp [List.take]
      · exact ih _ b hb

theorem chunksAux_dropLast_full (m : Nat) (hm : 0 < m) :
    ∀ (fuel : Nat) (l : List String), l.length ≤ fuel →
      ∀ b ∈ (chunksAux m fuel l).dropLast, b.length = m := by
  intro fuel
  induction fuel with
  | zero =>
    intro l hl b hb
    have : l = [] := List.length_eq_zero.mp (Nat.le_zero.mp hl)
    subst this
    simp [chunksAux] at hb
  | succ f ih =>
    intro l hl b hb
    cases l with
    | nil => simp [chunksAux] at hb
    | cons x xs =>
      have hdrop : ((x :: xs).drop m).length ≤ f := by
        rw [List.length_drop]
        simp only [List.length_cons] at hl ⊢
        omega
      simp only [chunksAux] at hb
      cases hrest : chunksAux m f ((x :: xs).drop m) with
      | nil => rw [hrest] at hb; simp at hb
      | cons c cs =>
        rw [hrest, List.dropLast_cons₂, List.mem_cons] at hb
        rcases hb with hb | hb
        · subst hb
          have hml : m ≤ (x :: xs).length := by
            by_contra hlt
            have : (x :: xs).drop m = [] := by
              rw [← List.length_eq_zero, List.length_drop]
              omega
            rw [this] at hrest
            cases f <;> simp [chunksAux] at hrest
          simpa [List.length_take] using Nat.min_eq_left hml
        · exact ih _ hdrop b (hrest ▸ hb)

/-! ### Wait-loop lemmas -/

theorem waitLoop_timedOut (p : Nat → Bool) :
    ∀ (remaining elapsed : Nat),
      (∀ n, n < elapsed + remaining → p n = false) →
      waitLoop p elapsed remaining = .timedOut (elapsed + remaining) := by
  intro remaining
  induction remaining with
  | zero => intro e _; simp [waitLoop]
  | succ r ih =>
    intro e h
    have hp : p e = false := h e (by omega)
    have hrec := ih (e + 1) (fun n hn => h n (by omega))
    simp only [waitLoop, hp, Bool.false_eq_true, if_false, hrec]
    congr 1
    omega

theorem waitLoop_cases (q : Nat → Bool) :
    ∀ (remaining elapsed : Nat),
      waitLoop q elapsed remaining = .timedOut (elapsed + remaining) ∨
      ∃ n, elapsed ≤ n ∧ n < elapsed + remaining ∧
        waitLoop q elapsed remaining = .resolved n ∧ q n = true := by
  intro remaining
  induction remaining with
  | zero => intro e; left; simp [waitLoop]
  | succ r ih =>
    intro e
    cases hq : q e with
    | true =>
      right
      exact ⟨e, Nat.le_refl e, by omega, by simp [waitLoop, hq], hq⟩
    | false =>
      rcases ih (e + 1) with h | ⟨n, h1, h2, h3, h4⟩
      · left
        simp only [waitLoop, hq, Bool.false_eq_true, if_false, h]
        congr 1
        omega
      · right
        refine ⟨n, by omega, by omega, ?_, h4⟩
        simp only [waitLoop, hq, Bool.false_eq_true, if_false, h3]

/-! ### Concrete inputs used by witnesses and counterexamples -/

/-- Eleven container numbers: two Trapac batches (ten and then one). -/
def idsEleven : List String :=
  ["CONT000", "CONT001", "CONT002", "CONT003", "CONT004",
   "CONT005", "CONT006", "CONT007", "CONT008", "CONT009", "CONT010"]

/-- A page-scraping oracle that parses no rows at all. -/
def rawNone : List String → List ContainerStatus := fun _ => []

/-- A substantive Trapac record for one container. -/
def trapacRecX : ContainerStatus :=
  { container_number := "MSCU1234567", terminal := some "Trapac" }

/-- A substantive Shippers Transport record for one container. -/
def substRecY : ContainerStatus :=
  { container_number := "OOLU7654321", terminal := some "Shippers Transport" }

/-! ### Claim theorems -/

/-- C6: batch planning over N identifiers with maximum batch size M (10 in
the Trapac checker) yields ceil(N/M) contiguous, non-overlapping,
order-preserving batches — their concatenation is the original list — each
of size M except possibly a smaller final batch, none empty; an empty input
produces zero batches. -/
theorem batch_partition (m : Nat) (l : List String) (hm : 0 < m) :
    (planBatches m l).length = (l.length + m - 1) / m ∧
    (planBatches m l).flatten = l ∧
    (∀ b ∈ planBatches m l, b ≠ []) ∧
    (∀ b ∈ (planBatches m l).dropLast, b.length = m) ∧
    planBatches m [] = [] :=
  ⟨chunksAux_length m hm l.length l (Nat.le_refl _),
   chunksAux_join m hm l.length l (Nat.le_refl _),
   fun b hb => chunksAux_ne_nil m hm l.length l b hb,
   fun b hb => chunksAux_dropLast_full m hm l.length l (Nat.le_refl _) b hb,
   rfl⟩

/-- Witness for C6 at the Trapac batch size 10 and a concrete list of 11
identifiers. -/
theorem batch_partition_witness :
    (planBatches 10 idsEleven).length = (idsEleven.length + 10 - 1) / 10 ∧
    (planBatches 10 idsEleven).flatten = idsEleven ∧
    (∀ b ∈ planBatches 10 idsEleven, b ≠ []) ∧
    (∀ b ∈ (planBatches 10 idsEleven).dropLast, b.length = 10) ∧
    planBatches 10 [] = [] :=
  batch_partition 10 idsEleven (by decide)

/-- C9: a ChallengeWaiter whose clearance check never succeeds ends the
polling loop timed out at exactly the 300-second ceiling; moreover the
bounded poll loop terminates on every run — timed out at exactly 300, or
resolved strictly before the ceiling at a poll that saw the table. -/
theorem challenge_timeout (p : Nat → Bool) (h : ∀ n, n < 300 → p n = false) :
    challengeWait p = .timedOut 300 ∧
    ∀ q : Nat → Bool, challengeWait q = .timedOut 300 ∨
      ∃ n, n < 300 ∧ challengeWait q = .resolved n ∧ q n = true := by
  constructor
  · simpa [challengeWait, maxWait] using
      waitLoop_timedOut p 300 0 (fun n hn => h n (by omega))
  · intro q
    rcases waitLoop_cases q 300 0 with hh | ⟨n, _, h2, h3, h4⟩
    · left
      simpa [challengeWait, maxWait] using hh
    · right
      exact ⟨n, by omega, by simpa [challengeWait, maxWait] using h3, h4⟩

/-- Witness for C9: the constantly-failing check times out at exactly 300. -/
theorem challenge_timeout_witness :
    challengeWait (fun _ => false) = .timedOut 300 :=
  (challenge_timeout (fun _ => false) (fun _ _ => rfl)).1

/-- C10: each checker's result set is total over its queried identifiers —
whatever the page interaction does (the `raw` oracle, exceptions included)
and whatever the login outcome, at least one returned record carries each
queried container number; and a queried container absent from the parsed
results is appended as a NOT FOUND record. -/
theorem source_result_totality (loginOk : Bool)
    (raw : List String → List ContainerStatus) (q : List String) (c : String)
    (hc : c ∈ q) :
    (∃ r ∈ checkerBehavior loginOk raw q, r.container_number = c) ∧
    ((∀ r ∈ raw q, r.container_number ≠ c) → loginOk = true →
      notFoundRec c ∈ checkerBehavior loginOk raw q) := by
  refine ⟨checkerBehavior_total loginOk raw q c hc, ?_⟩
  intro habs hlk
  subst hlk
  show notFoundRec c ∈ fillNotFound q (raw q)
  exact fillNotFound_nf_mem q (raw q) c habs hc

/-- Witness for C10 at a concrete queried list and the empty parse oracle. -/
theorem source_result_totality_witness :
    (∃ r ∈ checkerBehavior true rawNone ["TCLU0000000"],
      r.container_number = "TCLU0000000") ∧
    ((∀ r ∈ rawNone ["TCLU0000000"], r.container_number ≠ "TCLU0000000") →
      true = true →
      notFoundRec "TCLU0000000" ∈ checkerBehavior true rawNone ["TCLU0000000"]) :=
  source_result_totality true rawNone ["TCLU0000000"] "TCLU0000000" (by decide)

/-- C2: if the dictionary currently holds a not-found sentinel record for
identifier X (from one source) and another source's result list — merged
after it, in either mode — contains a substantive record for X, the final
entry for X is substantive, never the not-found placeholder. -/
theorem provisional_suppression (m : Dict) (rs : List ContainerStatus)
    (X : String) (a : ContainerStatus) (hA : dictLookup m X = some [a])
    (ha : a.terminal = some "NOT FOUND")
    (hB : ∃ r ∈ rs, r.container_number = X ∧ r.terminal ≠ some "NOT FOUND") :
    ∃ r, dictLookup (mergeResults m rs) X = some [r] ∧
      r.terminal ≠ some "NOT FOUND" :=
  mergeResults_substantive_of_mem rs m X hB

/-- Witness for C2: a concrete not-found entry overwritten by a substantive
Trapac record. -/
theorem provisional_suppression_witness :
    ∃ r, dictLookup
        (mergeResults [("MSCU1234567", [notFoundRec "MSCU1234567"])]
          [trapacRecX]) "MSCU1234567" = some [r] ∧
      r.terminal ≠ some "NOT FOUND" :=
  provisional_suppression [("MSCU1234567", [notFoundRec "MSCU1234567"])]
    [trapacRecX] "MSCU1234567" (notFoundRec "MSCU1234567") (by decide) rfl
    ⟨trapacRecX, by decide, rfl, by decide⟩

/-- C3: a record whose terminal is the not-found sentinel is inserted only
if no entry exists — the merge step leaves the dictionary unchanged whenever
any entry is already present for that container — and once the dictionary
holds a substantive record for X, no sequence of further merged results can
leave a not-found sentinel as X's entry. -/
theorem no_overwrite_by_notfound (m : Dict) (r : ContainerStatus)
    (rs : List ContainerStatus) (X : String)
    (hnf : r.terminal = some "NOT FOUND")
    (hc : dictContains m r.container_number = true)
    (hsub : substantiveAt m X) :
    mergeStep m r = m ∧ substantiveAt (mergeResults m rs) X := by
  constructor
  · simp [mergeStep, hnf, hc]
  · exact substantiveAt_mergeResults rs m X hsub

/-- Witness for C3 at a concrete dictionary holding a substantive record. -/
theorem no_overwrite_by_notfound_witness :
    mergeStep [("OOLU7654321", [substRecY])] (notFoundRec "OOLU7654321") =
      [("OOLU7654321", [substRecY])] ∧
    substantiveAt
      (mergeResults [("OOLU7654321", [substRecY])] [notFoundRec "OOLU7654321"])
      "OOLU7654321" :=
  no_overwrite_by_notfound [("OOLU7654321", [substRecY])]
    (notFoundRec "OOLU7654321") [notFoundRec "OOLU7654321"] "OOLU7654321"
    rfl (by decide) ⟨substRecY, by decide, by decide⟩

/-- Querying a checker-shaped source puts every queried container number
into the dictionary: its result list is total over the worklist and the
merge loop inserts a key for every record. -/
theorem seqSourceStep_contains_queried (st : SeqState) (loginOk : Bool)
    (raw : List String → List ContainerStatus) (c : String)
    (hc : c ∈ st.remaining) :
    dictContains
      (seqSourceStep st (checkerBehavior loginOk raw)).results c = true := by
  have hne : st.remaining.isEmpty = false := by
    cases hrem : st.remaining
    · rw [hrem] at hc
      cases hc
    · simp [hrem]
  unfold seqSourceStep
  rw [if_neg (by simp [hne])]
  show dictContains
    ((checkerBehavior loginOk raw st.remaining).foldl seqStep
      (st.results, st.remaining)).1 c = true
  rw [seqFold_fst]
  exact dictContains_mergeResults_of_mem _ _ _ (by
    obtain ⟨r, hr, hrc⟩ := checkerBehavior_total loginOk raw st.remaining c hc
    exact ⟨r, hr, hrc⟩)

/-- C1: in either mode, for any non-empty input identifier list and any
combination of checker behaviours (`loginOk` false models login failure; the
`raw` oracles model success, partial parses, challenge timeouts and caught
source exceptions alike), the final dictionary holds exactly one entry for
every normalized input identifier — identifiers a source drops are
backfilled by the per-source NOT FOUND synthesis, so the mapping is total
over the input set. -/
theorem mapping_totality
    (cfgs : List (Bool × (List String → List ContainerStatus)))
    (input : List String)
    (order : List (Bool × (List String → List ContainerStatus)))
    (hcf : cfgs ≠ []) (hin : input ≠ []) (hperm : order.Perm cfgs) :
    (∀ c ∈ normalizeIds input,
      countKey ((seqRun (cfgs.map fun p => checkerBehavior p.1 p.2)
        (normalizeIds input)).results) c = 1) ∧
    (∀ c ∈ normalizeIds input,
      countKey (parRun (order.map fun p => checkerBehavior p.1 p.2)
        (normalizeIds input)) c = 1) ∧
    (∀ c ∈ normalizeIds input,
      (∀ p ∈ cfgs, p.1 = true ∧ ∀ q, ∀ r ∈ p.2 q, r.container_number ≠ c) →
      dictLookup ((seqRun (cfgs.map fun p => checkerBehavior p.1 p.2)
        (normalizeIds input)).results) c = some [notFoundRec c]) ∧
    (∀ c ∈ normalizeIds input,
      (∀ p ∈ order, p.1 = true ∧ ∀ q, ∀ r ∈ p.2 q, r.container_number ≠ c) →
      dictLookup (parRun (order.map fun p => checkerBehavior p.1 p.2)
        (normalizeIds input)) c = some [notFoundRec c]) := by
  have hord : order ≠ [] := by
    intro h
    subst h
    exact hcf (List.length_eq_zero.mp (hperm.length_eq.symm ▸ rfl))
  refine ⟨?_, ?_, ?_, ?_⟩
  · intro c hc
    obtain ⟨p, rest, rfl⟩ := List.exists_cons_of_ne_nil hcf
    simp only [List.map_cons, seqRun, List.foldl_cons]
    set st0 : SeqState := { results := [], remaining := normalizeIds input }
    set st1 := seqSourceStep st0 (checkerBehavior p.1 p.2) with hst1
    have hcon1 : dictContains st1.results c = true :=
      seqSourceStep_contains_queried st0 p.1 p.2 c hc
    have hnd1 : (dictKeys st1.results).Nodup :=
      seqSourceStep_keysNodup st0 _ (by simp [st0, dictKeys])
    exact countKey_eq_one _ c
      (seqLoop_keysNodup _ st1 hnd1)
      (seqLoop_contains _ st1 c hcon1)
  · intro c hc
    obtain ⟨q, orest, rfl⟩ := List.exists_cons_of_ne_nil hord
    simp only [List.map_cons, parRun, List.foldl_cons]
    have hcon1 : dictContains
        (mergeResults [] (checkerBehavior q.1 q.2 (normalizeIds input)))
          c = true := by
      refine dictContains_mergeResults_of_mem _ _ _ ?_
      obtain ⟨r, hr, hrc⟩ :=
        checkerBehavior_total q.1 q.2 (normalizeIds input) c hc
      exact ⟨r, hr, hrc⟩
    have hnd1 : (dictKeys
        (mergeResults [] (checkerBehavior q.1 q.2 (normalizeIds input)))).Nodup :=
      keysNodup_mergeResults _ [] (by simp [dictKeys])
    exact countKey_eq_one _ c
      (parLoop_keysNodup _ _ _ hnd1)
      (parLoop_contains _ _ _ c hcon1)
  · intro c hc hall
    obtain ⟨p, rest, rfl⟩ := List.exists_cons_of_ne_nil hcf
    obtain ⟨hp1, hp2⟩ := hall p (List.mem_cons_self _ _)
    simp only [List.map_cons, seqRun, List.foldl_cons]
    set st0 : SeqState := { results := [], remaining := normalizeIds input }
    have hstep : dictLookup
        (seqSourceStep st0 (checkerBehavior p.1 p.2)).results c =
          some [notFoundRec c] := by
      rw [hp1]
      exact seqSourceStep_nf_established st0 p.2 c hp2 hc (Or.inl rfl)
    refine seqLoop_nf_preserved _ _ c ?_ hstep
    intro src hsrc q
    obtain ⟨p', hp', rfl⟩ := List.mem_map.mp hsrc
    obtain ⟨hq1, hq2⟩ := hall p' (List.mem_cons_of_mem _ hp')
    rw [hq1]
    exact (checkerBehavior_nf p'.2 q c hq2).1
  · intro c hc hall
    obtain ⟨q, orest, rfl⟩ := List.exists_cons_of_ne_nil hord
    obtain ⟨hq1, hq2⟩ := hall q (List.mem_cons_self _ _)
    simp only [List.map_cons, parRun, List.foldl_cons]
    have hstep : dictLookup
        (mergeResults [] (checkerBehavior q.1 q.2 (normalizeIds input))) c =
          some [notFoundRec c] := by
      rw [hq1]
      exact mergeResults_nf_established _ _ c
        ((checkerBehavior_nf q.2 (normalizeIds input) c hq2).1)
        ((checkerBehavior_nf q.2 (normalizeIds input) c hq2).2 hc)
        (Or.inl rfl)
    refine parLoop_nf_preserved _ _ _ c ?_ hstep
    intro src hsrc
    obtain ⟨p', hp', rfl⟩ := List.mem_map.mp hsrc
    obtain ⟨hr1, hr2⟩ := hall p' (List.mem_cons_of_mem _ hp')
    rw [hr1]
    exact (checkerBehavior_nf p'.2 (normalizeIds input) c hr2).1

/-- Witness for C1: one successful-but-empty source over a one-identifier
input, in both modes. -/
theorem mapping_totality_witness :
    (∀ c ∈ normalizeIds ["tclu0000001 "],
      countKey ((seqRun ([(true, rawNone)].map fun p =>
        checkerBehavior p.1 p.2) (normalizeIds ["tclu0000001 "])).results)
        c = 1) ∧
    (∀ c ∈ normalizeIds ["tclu0000001 "],
      countKey (parRun ([(true, rawNone)].map fun p =>
        checkerBehavior p.1 p.2) (normalizeIds ["tclu0000001 "])) c = 1) ∧
    (∀ c ∈ normalizeIds ["tclu0000001 "],
      (∀ p ∈ [(true, rawNone)], p.1 = true ∧
        ∀ q, ∀ r ∈ p.2 q, r.container_number ≠ c) →
      dictLookup ((seqRun ([(true, rawNone)].map fun p =>
        checkerBehavior p.1 p.2) (normalizeIds ["tclu0000001 "])).results) c =
        some [notFoundRec c]) ∧
    (∀ c ∈ normalizeIds ["tclu0000001 "],
      (∀ p ∈ [(true, rawNone)], p.1 = true ∧
        ∀ q, ∀ r ∈ p.2 q, r.container_number ≠ c) →
      dictLookup (parRun ([(true, rawNone)].map fun p =>
        checkerBehavior p.1 p.2) (normalizeIds ["tclu0000001 "])) c =
        some [notFoundRec c]) :=
  mapping_totality [(true, rawNone)] ["tclu0000001 "] [(true, rawNone)]
    (List.cons_ne_nil _ _) (List.cons_ne_nil _ _) (List.Perm.refl _)

/-- Counterexample to C4 as stated: the ingested worklist can contain
duplicates (case-variant inputs normalize to equal strings, and line 725
does not deduplicate), and `new_remaining.remove(container)` removes only
the first occurrence.  Here the first source substantively resolves
MSCU1234567, yet the identifier is still in `remaining` afterwards and the
second source is queried with it. -/
theorem seq_shortcircuit_counterexample :
    "MSCU1234567" ∈ (seqSourceStep
      { results := [],
        remaining := normalizeIds ["MSCU1234567", "mscu1234567"] }
      (checkerBehavior true (fun _ => [trapacRecX]))).remaining ∧
    seqQueries
      { results := [],
        remaining := normalizeIds ["MSCU1234567", "mscu1234567"] }
      [checkerBehavior true (fun _ => [trapacRecX]),
       checkerBehavior true rawNone]
      = [["MSCU1234567", "MSCU1234567"], ["MSCU1234567"]] := by decide

/-- C4 (amended): provided the worklist holds no duplicate identifiers,
substantively resolving X at one source removes X from `remaining` and no
later source is ever queried with X; and once `remaining` is empty the loop
stops — no further source is queried at all. -/
theorem seq_shortcircuit_amended :
    (∀ (st : SeqState) (src : Source) (rest : List Source) (X : String),
      st.remaining.Nodup → X ∈ st.remaining →
      (∃ r ∈ src st.remaining, r.container_number = X ∧
        r.terminal ≠ some "NOT FOUND") →
      X ∉ (seqSourceStep st src).remaining ∧
      ∀ q ∈ seqQueries (seqSourceStep st src) rest, X ∉ q) ∧
    (∀ (st : SeqState) (srcs : List Source), st.remaining = [] →
      seqQueries st srcs = []) := by
  constructor
  · intro st src rest X hnd hX hres
    have hne : st.remaining.isEmpty = false := by
      cases hrem : st.remaining
      · rw [hrem] at hX
        cases hX
      · simp [hrem]
    have hnot : X ∉ (seqSourceStep st src).remaining := by
      unfold seqSourceStep
      rw [if_neg (by simp [hne])]
      show X ∉ ((src st.remaining).foldl seqStep (st.results, st.remaining)).2
      exact seqFold_snd_resolved _ _ _ X hnd hres
    exact ⟨hnot, seqQueries_not_mem rest _ X hnot⟩
  · intro st srcs h
    cases srcs with
    | nil => rfl
    | cons s rest =>
      unfold seqQueries
      rw [if_pos (by simp [h])]

/-- Witness for the amended C4 at a duplicate-free one-identifier worklist,
together with the early-termination conjunct at an emptied worklist. -/
theorem seq_shortcircuit_amended_witness :
    ("MSCU1234567" ∉ (seqSourceStep
        { results := [], remaining := ["MSCU1234567"] }
        (checkerBehavior true (fun _ => [trapacRecX]))).remaining ∧
      ∀ q ∈ seqQueries
        (seqSourceStep { results := [], remaining := ["MSCU1234567"] }
          (checkerBehavior true (fun _ => [trapacRecX])))
        [checkerBehavior true rawNone], "MSCU1234567" ∉ q) ∧
    seqQueries { results := [], remaining := [] }
      [checkerBehavior true rawNone] = [] :=
  ⟨seq_shortcircuit_amended.1
      { results := [], remaining := ["MSCU1234567"] }
      (checkerBehavior true (fun _ => [trapacRecX]))
      [checkerBehavior true rawNone] "MSCU1234567"
      (by decide) (by decide) (by decide),
    seq_shortcircuit_amended.2
      { results := [], remaining := [] } [checkerBehavior true rawNone] rfl⟩

/-- Counterexample to C5 as stated: in sequential mode a login failure at
the second source does prevent the third source from being queried.  The
first source finds nothing (provisional NOT FOUND), the second fails login;
its LOGIN FAILED record is treated as substantive by the merge loop (its
terminal differs from "NOT FOUND"), so the identifier is removed from the
worklist, the third source is never queried, and the final record stays
LOGIN FAILED. -/
theorem login_failure_counterexample :
    seqQueries { results := [], remaining := ["AAAU1111111"] }
      [checkerBehavior true rawNone, checkerBehavior false rawNone,
       checkerBehavior true rawNone]
      = [["AAAU1111111"], ["AAAU1111111"]] ∧
    dictLookup (seqRun
      [checkerBehavior true rawNone, checkerBehavior false rawNone,
       checkerBehavior true rawNone] ["AAAU1111111"]).results "AAAU1111111"
      = some [loginFailedRec "AAAU1111111"] := by decide

theorem seqFold_snd_loginFailed (l : List String) (m : Dict)
    (rem : List String) :
    ((l.map loginFailedRec).foldl seqStep (m, rem)).2 =
      l.foldl (fun r c => r.erase c) rem := by
  induction l generalizing m rem with
  | nil => rfl
  | cons c cs ih =>
    simp only [List.map_cons, List.foldl_cons]
    have e : seqStep (m, rem) (loginFailedRec c) =
        (mergeStep m (loginFailedRec c), rem.erase c) := by
      simp [seqStep, loginFailedRec]
    rw [e]
    exact ih _ _

theorem foldl_erase_self (l : List String) :
    l.foldl (fun r c => r.erase c) l = [] := by
  induction l with
  | nil => rfl
  | cons c cs ih =>
    simp only [List.foldl_cons, List.erase_cons_head]
    exact ih

/-- C5 (amended): a login failure makes every requested identifier a LOGIN
FAILED record, without the query path ever running; but in sequential mode
those records are treated as substantive resolutions — they empty the
worklist, so no later source is queried at all for those identifiers
(parallel mode is unaffected, every task holding the full list by
construction). -/
theorem login_failure_amended :
    (∀ (raw : List String → List ContainerStatus) (q : List String),
      checkerBehavior false raw q = q.map loginFailedRec) ∧
    (∀ (st : SeqState) (raw : List String → List ContainerStatus),
      (seqSourceStep st (checkerBehavior false raw)).remaining = []) ∧
    (∀ (st : SeqState) (raw : List String → List ContainerStatus)
      (rest : List Source),
      seqQueries (seqSourceStep st (checkerBehavior false raw)) rest = []) := by
  have h2 : ∀ (st : SeqState) (raw : List String → List ContainerStatus),
      (seqSourceStep st (checkerBehavior false raw)).remaining = [] := by
    intro st raw
    unfold seqSourceStep
    by_cases he : st.remaining.isEmpty = true
    · rw [if_pos (by simpa using he)]
      exact List.isEmpty_iff.mp he
    · rw [if_neg (by simpa using he)]
      show ((checkerBehavior false raw st.remaining).foldl seqStep
        (st.results, st.remaining)).2 = []
      rw [show checkerBehavior false raw st.remaining =
          st.remaining.map loginFailedRec from rfl]
      rw [seqFold_snd_loginFailed]
      exact foldl_erase_self st.remaining
  refine ⟨fun raw q => rfl, h2, ?_⟩
  intro st raw rest
  cases rest with
  | nil => rfl
  | cons s srcs =>
    unfold seqQueries
    rw [if_pos (by simp [h2 st raw])]

/-- Counterexample to C7 as stated: with eleven identifiers (two batches)
and the first batch raising (the challenge-timeout exception path), only
batch 0 is attempted — the second batch is never queried, and its
identifier CONT010 is nevertheless marked NOT FOUND by the fill step. -/
theorem timeout_batch_counterexample :
    (planBatches 10 idsEleven).length = 2 ∧
    (trapacRun (fun _ => .err) idsEleven).2 = [0] ∧
    notFoundRec "CONT010" ∈ (trapacRun (fun _ => .err) idsEleven).1 := by
  decide

theorem map_add_range_succ (n k : Nat) :
    (List.range (k + 1)).map (fun x => n + x) =
      n :: (List.range k).map (fun x => n + 1 + x) := by
  rw [List.range_succ_eq_map, List.map_cons, List.map_map]
  congr 1
  refine List.map_congr_left ?_
  intro a _
  simp only [Function.comp_apply]
  omega

theorem trapacLoop_attempted (out : Nat → BatchOutcome) :
    ∀ (bs : List (List String)) (n k : Nat),
      (∀ j, n ≤ j → j < n + k → out j ≠ .err) → out (n + k) = .err →
      k < bs.length →
      (trapacLoop out bs n).2 = (List.range (k + 1)).map (n + ·) := by
  intro bs
  induction bs with
  | nil =>
    intro n k _ _ hk
    simp at hk
  | cons b rest ih =>
    intro n k hok herr hk
    cases k with
    | zero =>
      have hn : out n = .err := by simpa using herr
      simp [trapacLoop, hn, List.range_succ]
    | succ k =>
      have hne : out n ≠ .err := hok n (Nat.le_refl n) (by omega)
      cases hout : out n with
      | err => exact absurd hout hne
      | ok rows =>
        have hrec := ih (n + 1) k
          (fun j h1 h2 => hok j (by omega) (by omega))
          (by rw [show n + 1 + k = n + (k + 1) by omega]; exact herr)
          (by simpa using Nat.lt_of_succ_lt_succ (by simpa using hk))
        simp only [trapacLoop, hout, hrec]
        rw [map_add_range_succ n (k + 1)]

/-- C7 (amended): when batch `i` of a Trapac run raises (challenge timeout
included) after batches `0..i-1` succeeded, exactly batches `0..i` are
attempted — every later batch is abandoned, never queried — and the fill
step still marks every unresolved queried identifier NOT FOUND, so the
source's result set stays total and the run proceeds to the next source. -/
theorem timeout_batch_amended (out : Nat → BatchOutcome)
    (ids : List String) (i : Nat)
    (hok : ∀ j, j < i → out j ≠ .err) (herr : out i = .err)
    (hi : i < (planBatches 10 ids).length) :
    (trapacRun out ids).2 = List.range (i + 1) ∧
    ∀ c ∈ ids, ∃ r ∈ (trapacRun out ids).1, r.container_number = c := by
  constructor
  · show (trapacLoop out (planBatches 10 ids) 0).2 = List.range (i + 1)
    rw [trapacLoop_attempted out (planBatches 10 ids) 0 i
      (fun j _ h2 => hok j (by omega)) (by simpa using herr) hi]
    have e : (fun x : Nat => 0 + x) = id := funext fun x => Nat.zero_add x
    rw [e, List.map_id]
  · intro c hc
    exact fillNotFound_total ids _ c hc

/-- The oracle whose first batch succeeds with no rows and whose second
batch raises. -/
def outSecondErr : Nat → BatchOutcome :=
  fun j => if j = 0 then .ok [] else .err

/-- Witness for the amended C7: first batch fine, second batch raises. -/
theorem timeout_batch_amended_witness :
    (trapacRun outSecondErr idsEleven).2 = List.range 2 ∧
    ∀ c ∈ idsEleven, ∃ r ∈ (trapacRun outSecondErr idsEleven).1,
      r.container_number = c :=
  timeout_batch_amended outSecondErr idsEleven 1
    (fun j hj => by
      have : j = 0 := by omega
      subst this
      decide)
    (by decide) (by decide)

/-- Counterexample to C8 as stated: ingestion normalizes but does not
deduplicate — two case-variant inputs survive as two equal entries of the
worklist. -/
theorem normalization_counterexample :
    normalizeIds ["ABC1234567", "abc1234567"] =
      ["ABC1234567", "ABC1234567"] ∧
    ¬ (normalizeIds ["ABC1234567", "abc1234567"]).Nodup := by decide

/-- C8 (amended): at ingestion every input identifier is trimmed and
uppercased, elementwise and order-preserving (the spec's example holds),
but uniqueness is not enforced: the worklist keeps one entry per input,
duplicates included. -/
theorem normalization_amended :
    (∀ ids : List String, (normalizeIds ids).length = ids.length) ∧
    (∀ (ids : List String) (i : Nat),
      (normalizeIds ids)[i]? = (ids[i]?).map pyStripUpper) ∧
    normalizeIds ["ABC1234567", "xyz9999999 "] =
      ["ABC1234567", "XYZ9999999"] :=
  ⟨fun ids => List.length_map ids pyStripUpper,
   fun ids i => List.getElem?_map pyStripUpper ids i,
   by decide⟩

end ContainerCrawler
